import Mathlib

/-!
Shallow embedding of the aw-core repository (`src/aw_datastore/storage_strategies.py`
and `src/aw_transform/flood.py`) together with proofs about the claims of the
specification.

Modelling conventions:
* Timestamps and durations (Python `datetime` / `timedelta`) are integers (a fixed
  time unit); the `pulsetime` float is likewise an integer number of that unit.
  Only order and arithmetic on these quantities matter to the code.
* An event's `data` payload (a Python dict compared with `==`) is a list of
  string key/value pairs compared by equality.
* Python dicts used as key→value stores (`self.db`, `self._metadata`) become
  functions `String → Option _`; a raised `KeyError`/`IndexError`/
  `FileNotFoundError`/JSON decode error becomes an `Err` value in `Except`.
* The file backend's bucket directory is `Option FileBucket` (present/absent);
  the single event-log file (`_get_filename` always yields file number 0) is
  `Option (List (Option Event))`: `none` = file absent, and each line of the
  file is `some event` for a JSON line or `none` for the unparsable empty line
  that `insert_many []` writes.
-/

/-- An event: `aw_core.models.Event` as used by the code under verification
(timestamp, duration, data payload compared by equality). -/
structure Event where
  timestamp : Int
  duration : Int
  data : List (String × String)
deriving DecidableEq, Inhabited

/-- Bucket metadata as built by `create_bucket` (both backends build the same
dict of six fields). -/
structure Metadata where
  id : String
  name : String
  type_ : String
  client : String
  hostname : String
  created : String
deriving DecidableEq

/-- The errors the storage code can raise: Python `KeyError` (dict lookup /
`del` on a missing key), `IndexError` (`lst[-1]` on an empty list),
`FileNotFoundError` (opening a file in a missing directory / missing file,
`rmtree` of a missing directory), and a JSON decode error
(`json.loads` on an empty line). -/
inductive Err where
  | keyError
  | indexError
  | fileNotFound
  | jsonError
deriving DecidableEq

/-- `sys.maxsize` on a 64-bit CPython. -/
def sysMaxsize : Nat := 2 ^ 63 - 1

/-- Setting (or, with `none`, deleting) one key of a Python dict modelled as a
function. -/
def dictSet (f : String → Option β) (k : String) (v : Option β) :
    String → Option β :=
  fun s => if s = k then v else f s

/-- Python's slice `xs[i:]` for an integer `i`: a non-negative start drops the
first `i` elements, a negative start keeps the last `-i` elements (clamped). -/
def pySliceFrom (i : Int) (xs : List α) : List α :=
  if 0 ≤ i then xs.drop i.toNat else xs.drop (xs.length - (-i).toNat)

/-- `name = bucket_id if not name else name`: Python's `if not name` is true
both for `None` and for the empty string. -/
def defaultName (name : Option String) (bucketId : String) : String :=
  match name with
  | none => bucketId
  | some s => if s = "" then bucketId else s

/-- `create_bucket`'s metadata dict (identical in the memory and file
backends). -/
def mkMetadata (bucketId typeId client hostname created : String)
    (name : Option String) : Metadata :=
  { id := bucketId, name := defaultName name bucketId, type_ := typeId,
    client := client, hostname := hostname, created := created }

/-! ## MemoryStorageStrategy -/

/-- State of `MemoryStorageStrategy`: the `self.db` dict of event lists and
the `self._metadata` dict. -/
structure MemDB where
  db : String → Option (List Event)
  meta : String → Option Metadata

/-- `MemoryStorageStrategy.create_bucket`: unconditionally overwrites
`self._metadata[bucket_id]` and sets `self.db[bucket_id] = []`.  There is no
existence check in the code. -/
def memCreateBucket (d : MemDB) (bucketId typeId client hostname created : String)
    (name : Option String) : MemDB :=
  { db := dictSet d.db bucketId (some []),
    meta := dictSet d.meta bucketId
      (some (mkMetadata bucketId typeId client hostname created name)) }

/-- `MemoryStorageStrategy.delete_bucket`: `del self.db[bucket_id]` then
`del self._metadata[bucket_id]`; `del` on an absent key raises `KeyError`. -/
def memDeleteBucket (d : MemDB) (bucketId : String) : Except Err Unit × MemDB :=
  match d.db bucketId with
  | none => (.error .keyError, d)
  | some _ =>
    let d1 : MemDB := { d with db := dictSet d.db bucketId none }
    match d1.meta bucketId with
    | none => (.error .keyError, d1)
    | some _ =>
      (.ok (), { d1 with meta := dictSet d1.meta bucketId none })

/-- `MemoryStorageStrategy.get_events`: `limit = sys.maxsize` when `limit == -1`,
then `self.db[bucket][-limit:]`. -/
def memGetEvents (d : MemDB) (bucket : String) (limit : Int) :
    Except Err (List Event) :=
  let lim : Int := if limit = -1 then (sysMaxsize : Int) else limit
  match d.db bucket with
  | none => .error .keyError
  | some evs => .ok (pySliceFrom (-lim) evs)

/-- `MemoryStorageStrategy.get_metadata`: `self._metadata[bucket_id]`. -/
def memGetMetadata (d : MemDB) (bucketId : String) : Except Err Metadata :=
  match d.meta bucketId with
  | none => .error .keyError
  | some m => .ok m

/-- `MemoryStorageStrategy.insert_one`: `self.db[bucket].append(event)`. -/
def memInsertOne (d : MemDB) (bucket : String) (e : Event) :
    Except Err Unit × MemDB :=
  match d.db bucket with
  | none => (.error .keyError, d)
  | some evs =>
    (.ok (), { d with db := dictSet d.db bucket (some (evs ++ [e])) })

/-- `StorageStrategy.insert_many` as inherited by the memory backend: a loop of
`insert_one` calls, stopping at the first raised error. -/
def memInsertMany (d : MemDB) (bucket : String) : List Event → Except Err Unit × MemDB
  | [] => (.ok (), d)
  | e :: rest =>
    match memInsertOne d bucket e with
    | (.error err, d') => (.error err, d')
    | (.ok _, d') => memInsertMany d' bucket rest

/-- `MemoryStorageStrategy.replace_last`: `self.db[bucket_id][-1] = event`;
raises `KeyError` on a missing bucket and `IndexError` on an empty list,
leaving the state untouched in both cases. -/
def memReplaceLast (d : MemDB) (bucketId : String) (e : Event) :
    Except Err Unit × MemDB :=
  match d.db bucketId with
  | none => (.error .keyError, d)
  | some [] => (.error .indexError, d)
  | some evs =>
    (.ok (), { d with db := dictSet d.db bucketId (some (evs.set (evs.length - 1) e)) })

/-! ## FileStorageStrategy -/

/-- One bucket directory of `FileStorageStrategy`: the `metadata.json` file and
the single event-log file `0`.  A log line is `some e` (a JSON-serialized
event) or `none` (the bare empty line written by `insert_many []`). -/
structure FileBucket where
  meta : Option Metadata
  log : Option (List (Option Event))

/-- State of `FileStorageStrategy`: the buckets directory. -/
structure FileDB where
  buckets : String → Option FileBucket

/-- `json.loads` applied line by line: the first unparsable (empty) line
raises. -/
def parseLines : List (Option Event) → Except Err (List Event)
  | [] => .ok []
  | none :: _ => .error .jsonError
  | some e :: rest =>
    match parseLines rest with
    | .error err => .error err
    | .ok evs => .ok (e :: evs)

/-- `FileStorageStrategy.create_bucket`: `os.makedirs` when the directory is
absent, then overwrite `metadata.json`.  No existence check; the log file is
untouched. -/
def fileCreateBucket (d : FileDB) (bucketId typeId client hostname created : String)
    (name : Option String) : FileDB :=
  let bk : FileBucket :=
    match d.buckets bucketId with
    | none => { meta := none, log := none }
    | some bk => bk
  { buckets := dictSet d.buckets bucketId
      (some { bk with meta := some (mkMetadata bucketId typeId client hostname created name) }) }

/-- `FileStorageStrategy.delete_bucket`: `rmtree` of the bucket directory;
`rmtree` on a missing directory raises `FileNotFoundError`. -/
def fileDeleteBucket (d : FileDB) (bucketId : String) : Except Err Unit × FileDB :=
  match d.buckets bucketId with
  | none => (.error .fileNotFound, d)
  | some _ =>
    (.ok (), { buckets := dictSet d.buckets bucketId none })

/-- `FileStorageStrategy.get_events`: `limit = sys.maxsize` when `limit == -1`;
returns `[]` when the log file does not exist (also for an absent bucket);
otherwise `json.loads` on `f.readlines()[-limit:]`. -/
def fileGetEvents (d : FileDB) (bucket : String) (limit : Int) :
    Except Err (List Event) :=
  let lim : Int := if limit = -1 then (sysMaxsize : Int) else limit
  match d.buckets bucket with
  | none => .ok []
  | some bk =>
    match bk.log with
    | none => .ok []
    | some lines => parseLines (pySliceFrom (-lim) lines)

/-- `FileStorageStrategy.get_metadata`: opens `metadata.json`; a missing bucket
directory or missing file raises `FileNotFoundError`. -/
def fileGetMetadata (d : FileDB) (bucketId : String) : Except Err Metadata :=
  match d.buckets bucketId with
  | none => .error .fileNotFound
  | some bk =>
    match bk.meta with
    | none => .error .fileNotFound
    | some m => .ok m

/-- `FileStorageStrategy.insert_many`: appends
`"\n".join(map(json.dumps, events)) + "\n"` to the log, opened with `"a+"`
(creates the file, but fails with `FileNotFoundError` when the bucket
directory is absent).  For an empty event list the appended text is a single
empty line, which later reads cannot parse. -/
def fileInsertMany (d : FileDB) (bucket : String) (events : List Event) :
    Except Err Unit × FileDB :=
  match d.buckets bucket with
  | none => (.error .fileNotFound, d)
  | some bk =>
    let newLines : List (Option Event) :=
      match events with
      | [] => [none]
      | _ => events.map some
    let lines := bk.log.getD [] ++ newLines
    (.ok (), { buckets := dictSet d.buckets bucket (some { bk with log := some lines }) })

/-- `FileStorageStrategy.insert_one`: `insert_many(bucket, [event])`. -/
def fileInsertOne (d : FileDB) (bucket : String) (e : Event) :
    Except Err Unit × FileDB :=
  fileInsertMany d bucket [e]

/-- `FileStorageStrategy.replace_last`: reads all events via
`get_events(bucket, -1)`, then opens the live log with mode `"w"` — which
truncates it in place (or creates it) — and writes the full list with the last
element replaced.  `events[-1]` on an empty list raises `IndexError` after the
truncation has already happened, leaving an empty log file behind. -/
def fileReplaceLast (d : FileDB) (bucket : String) (newevent : Event) :
    Except Err Unit × FileDB :=
  match fileGetEvents d bucket (-1) with
  | .error err => (.error err, d)
  | .ok evs =>
    match d.buckets bucket with
    | none => (.error .fileNotFound, d)
    | some bk =>
      match evs with
      | [] =>
        (.error .indexError,
         { buckets := dictSet d.buckets bucket (some { bk with log := some [] }) })
      | _ =>
        let evs' := evs.set (evs.length - 1) newevent
        (.ok (),
         { buckets := dictSet d.buckets bucket (some { bk with log := some (evs'.map some) }) })

/-- The successive contents of the live log file observable during
`FileStorageStrategy.replace_last` on a log holding `lines` (all parsable,
non-empty): the initial content, the content right after `open(filename, "w")`
truncates the file, and the content after the full rewrite is written. -/
def fileReplaceLastLogStates (lines : List Event) (newevent : Event) :
    List (List Event) :=
  [lines, [], lines.set (lines.length - 1) newevent]

/-! ## flood (aw_transform/flood.py) -/

/-- The sort order of `sorted(events, key=lambda e: e.timestamp)`. -/
def tsLE (a b : Event) : Prop := a.timestamp ≤ b.timestamp

instance : DecidableRel tsLE :=
  fun a b => inferInstanceAs (Decidable (a.timestamp ≤ b.timestamp))

/-- The body of `flood`'s `for e1, e2 in zip(events[:-1], events[1:])` loop.
The in-place mutation of the Python loop is expressed by threading the current
(possibly already-updated) left event through the recursion: the returned list
holds each event's final value. -/
def floodPass (p : Int) : Event → List Event → List Event
  | e1, [] => [e1]
  | e1, e2 :: rest =>
    if e2.timestamp - (e1.timestamp + e1.duration) ≤ p then
      let e2end := e2.timestamp + e2.duration
      if e2.duration ≤ e1.duration then
        if e1.data = e2.data then
          { e1 with duration := e2end - e1.timestamp } ::
            floodPass p { e2 with timestamp := e2end, duration := 0 } rest
        else
          { e1 with duration := e2.timestamp - e1.timestamp } :: floodPass p e2 rest
      else
        if e1.data = e2.data then
          { e1 with duration := 0 } ::
            floodPass p { e2 with timestamp := e1.timestamp,
                                  duration := e2end - e1.timestamp } rest
        else
          e1 :: floodPass p { e2 with timestamp := e1.timestamp + e1.duration,
                                      duration := e2end - (e1.timestamp + e1.duration) } rest
    else
      e1 :: floodPass p e2 rest

/-- `flood(events, pulsetime)`: sort by timestamp (Python's `sorted` is stable,
as is insertion sort), run the pairwise pass, and drop the events left with
zero (or, defensively, negative) duration — the Python filter keeps
`e.duration > timedelta(0)`. -/
def flood (events : List Event) (p : Int) : List Event :=
  match List.insertionSort tsLE events with
  | [] => []
  | e :: rest => (floodPass p e rest).filter (fun ev => decide (0 < ev.duration))

/-! ## flood with explicit object identity

Python passes the caller's `events` list by reference, and the events in it
are mutable objects; `flood` deep-copies them (`events = deepcopy(events)`)
before its in-place mutations.  To state that the caller's objects are never
mutated we make object identity explicit: a heap `List Event` of live event
objects, event references as heap indices.  `deepcopy` allocates fresh copies
at the end of the heap; the loop's mutations are `List.set` writes at the
event's own index. -/

/-- `deepcopy(events)`: allocate a copy of every referenced event at the end of
the heap; the new list holds the fresh references. -/
def deepcopyRefs (σ : List Event) (refs : List Nat) : List Event × List Nat :=
  (σ ++ refs.map (fun r => σ.getD r default), List.range' σ.length refs.length)

/-- The sort key comparison of `sorted(events, key=lambda e: e.timestamp)`,
read through the heap. -/
def heapTsLE (σ : List Event) (r1 r2 : Nat) : Prop :=
  (σ.getD r1 default).timestamp ≤ (σ.getD r2 default).timestamp

instance (σ : List Event) : DecidableRel (heapTsLE σ) :=
  fun r1 r2 =>
    inferInstanceAs (Decidable ((σ.getD r1 default).timestamp ≤ (σ.getD r2 default).timestamp))

/-- The pairwise loop of `flood`, acting on the heap: each branch writes the
mutated event(s) back at their own references and the loop advances with `r`
as the new left-hand event. -/
def floodLoopH (p : Int) (σ : List Event) (prev : Nat) : List Nat → List Event
  | [] => σ
  | r :: rest =>
    let e1 := σ.getD prev default
    let e2 := σ.getD r default
    if e2.timestamp - (e1.timestamp + e1.duration) ≤ p then
      let e2end := e2.timestamp + e2.duration
      if e2.duration ≤ e1.duration then
        if e1.data = e2.data then
          let σ1 := σ.set prev { e1 with duration := e2end - e1.timestamp }
          let σ2 := σ1.set r { e2 with timestamp := e2end, duration := 0 }
          floodLoopH p σ2 r rest
        else
          floodLoopH p (σ.set prev { e1 with duration := e2.timestamp - e1.timestamp }) r rest
      else
        if e1.data = e2.data then
          let σ1 := σ.set prev { e1 with duration := 0 }
          let σ2 := σ1.set r { e2 with timestamp := e1.timestamp, duration := e2end - e1.timestamp }
          floodLoopH p σ2 r rest
        else
          let e2' : Event := { e2 with timestamp := e1.timestamp + e1.duration,
                                       duration := e2end - (e1.timestamp + e1.duration) }
          floodLoopH p (σ.set r e2') r rest
    else
      floodLoopH p σ r rest

/-- `flood` with explicit object identity: deep-copy, sort the (fresh)
references by timestamp, run the mutation loop on the heap, and return the
final heap together with the references whose events kept a positive
duration. -/
def floodH (σ : List Event) (refs : List Nat) (p : Int) : List Event × List Nat :=
  let copied := deepcopyRefs σ refs
  let sortedRefs := List.insertionSort (heapTsLE copied.1) copied.2
  match sortedRefs with
  | [] => (copied.1, [])
  | r :: rest =>
    let σ2 := floodLoopH p copied.1 r rest
    (σ2, sortedRefs.filter (fun q => decide (0 < (σ2.getD q default).duration)))

/-! ## Helper lemmas -/

theorem parseLines_map_some (l : List Event) : parseLines (l.map some) = .ok l := by
  induction l with
  | nil => rfl
  | cons e rest ih => simp [parseLines, ih]

theorem length_floodPass (p : Int) (e : Event) (rest : List Event) :
    (floodPass p e rest).length = rest.length + 1 := by
  induction rest generalizing e with
  | nil => rfl
  | cons e2 rest ih =>
    simp only [floodPass]
    split_ifs <;> simp [ih]

theorem pySliceFrom_neg (xs : List α) (L : Int) (h : 1 ≤ L) :
    pySliceFrom (-L) xs = xs.drop (xs.length - L.toNat) := by
  unfold pySliceFrom
  rw [if_neg (by omega), neg_neg]

theorem pySliceFrom_neg_all (xs : List α) (L : Int) (h1 : 1 ≤ L)
    (h2 : xs.length ≤ L.toNat) : pySliceFrom (-L) xs = xs := by
  rw [pySliceFrom_neg xs L h1, Nat.sub_eq_zero_of_le h2, List.drop_zero]

theorem sysMaxsize_pos : 1 ≤ (sysMaxsize : Int) := by
  unfold sysMaxsize; omega

/-! ## Claims -/

/-- C2: `flood` applied to two same-data events within pulsetime merges them
into one event spanning both: scenario 1 (A dominant) gives the single event
(t=0, dur=15); scenario 3 (B dominant) gives the single event (t=0, dur=13)
with A removed. -/
theorem C2_flood_merge_scenarios :
    flood [⟨0, 10, [("app", "x")]⟩, ⟨12, 3, [("app", "x")]⟩] 5 =
      [⟨0, 15, [("app", "x")]⟩] ∧
    flood [⟨0, 2, [("app", "x")]⟩, ⟨3, 10, [("app", "x")]⟩] 5 =
      [⟨0, 13, [("app", "x")]⟩] :=
  ⟨by decide, by decide⟩

/-- C9: `flood` is non-expanding: the output has at most as many events as the
input (the pairwise pass preserves length, the final filter only removes). -/
theorem C9_flood_non_expanding (events : List Event) (p : Int) :
    (flood events p).length ≤ events.length := by
  unfold flood
  cases h : List.insertionSort tsLE events with
  | nil => simp
  | cons e rest =>
    have hlen : rest.length + 1 = events.length := by
      have hs := List.length_insertionSort tsLE events
      rw [h] at hs
      simpa using hs
    calc ((floodPass p e rest).filter (fun ev => decide (0 < ev.duration))).length
        ≤ (floodPass p e rest).length := List.length_filter_le _ _
      _ = rest.length + 1 := length_floodPass p e rest
      _ = events.length := hlen

/-- C10: in the memory backend, `get_events(bucket, 0)` on an existing bucket
returns all stored events — the `[-0:]` slice selects the whole list — so it
agrees with `limit = -1` (whose `sys.maxsize` bound exceeds any actual list
length). -/
theorem C10_limit_zero_unbounded (d : MemDB) (b : String) (evs : List Event)
    (h : d.db b = some evs) (hlen : evs.length ≤ sysMaxsize) :
    memGetEvents d b 0 = memGetEvents d b (-1) ∧
    memGetEvents d b 0 = .ok evs := by
  have h0 : memGetEvents d b 0 = .ok evs := by
    simp only [memGetEvents, h]
    norm_num [pySliceFrom]
  have h1 : memGetEvents d b (-1) = .ok evs := by
    simp only [memGetEvents, h, if_true]
    rw [pySliceFrom_neg_all evs (sysMaxsize : Int) sysMaxsize_pos (by simpa using hlen)]
  exact ⟨h0.trans h1.symm, h0⟩

/-- A one-event, one-bucket memory state used to instantiate the general
theorems. -/
def memDB1 : MemDB :=
  ⟨fun s => if s = "b" then some [⟨0, 1, []⟩] else none, fun _ => none⟩

/-- Witness for C10 at a one-event bucket. -/
theorem C10_witness :
    memGetEvents memDB1 "b" 0 = memGetEvents memDB1 "b" (-1) ∧
    memGetEvents memDB1 "b" 0 = .ok [⟨0, 1, []⟩] :=
  C10_limit_zero_unbounded memDB1 "b" [⟨0, 1, []⟩] rfl (by decide)

/-- A one-bucket memory state with both events and metadata present. -/
def memDB2 : MemDB :=
  ⟨fun s => if s = "b" then some [⟨0, 1, []⟩] else none,
   fun s => if s = "b" then some (mkMetadata "b" "t" "c" "h" "cr" none) else none⟩

/-- A one-bucket file state: metadata present, one event in the log. -/
def fileDB1 : FileDB :=
  ⟨fun s => if s = "b" then
      some ⟨some (mkMetadata "b" "t" "c" "h" "cr" none), some [some ⟨0, 1, []⟩]⟩
    else none⟩

/-- A one-bucket file state with two events in the log. -/
def fileDB2 : FileDB :=
  ⟨fun s => if s = "b" then
      some ⟨some (mkMetadata "b" "t" "c" "h" "cr" none),
            some [some ⟨0, 1, []⟩, some ⟨2, 1, []⟩]⟩
    else none⟩

theorem fileGetEvents_all (d : FileDB) (b : String) (bk : FileBucket)
    (evs : List Event) (h1 : d.buckets b = some bk)
    (h2 : bk.log = some (evs.map some)) (h3 : evs.length ≤ sysMaxsize) :
    fileGetEvents d b (-1) = .ok evs := by
  simp only [fileGetEvents, h1, h2, if_true]
  rw [pySliceFrom_neg_all _ (sysMaxsize : Int) sysMaxsize_pos (by simpa using h3)]
  exact parseLines_map_some evs

/-- C4 (counterexample to the claim as stated): on the memory backend,
`create_bucket` on a taken id does not fail with `AlreadyExists` — it succeeds
and resets the stored event list to empty. -/
theorem C4_counterexample :
    memGetEvents memDB2 "b" (-1) = .ok [⟨0, 1, []⟩] ∧
    memGetEvents (memCreateBucket memDB2 "b" "t2" "c2" "h2" "cr2" none) "b" (-1) =
      .ok [] ∧
    ([⟨0, 1, []⟩] : List Event) ≠ [] :=
  ⟨rfl, rfl, by decide⟩

/-- C4 (amended): `create_bucket` on a taken id performs no existence check and
does not fail: the memory backend overwrites the metadata and resets the event
sequence to empty, and the file backend overwrites the metadata while keeping
the stored event log. -/
theorem C4_create_bucket_overwrites :
    (∀ (d : MemDB) (id t c hn cr : String) (nm : Option String) (evs : List Event),
      d.db id = some evs →
      (memCreateBucket d id t c hn cr nm).db id = some [] ∧
      (memCreateBucket d id t c hn cr nm).meta id = some (mkMetadata id t c hn cr nm)) ∧
    (∀ (d : FileDB) (id t c hn cr : String) (nm : Option String) (bk : FileBucket),
      d.buckets id = some bk →
      (fileCreateBucket d id t c hn cr nm).buckets id =
        some ⟨some (mkMetadata id t c hn cr nm), bk.log⟩) := by
  constructor
  · intro d id t c hn cr nm evs _
    constructor <;> simp [memCreateBucket, dictSet]
  · intro d id t c hn cr nm bk h
    simp [fileCreateBucket, dictSet, h]

/-- Witness for C4 at concrete one-bucket states. -/
theorem C4_witness :
    ((memCreateBucket memDB2 "b" "t2" "c2" "h2" "cr2" none).db "b" = some [] ∧
     (memCreateBucket memDB2 "b" "t2" "c2" "h2" "cr2" none).meta "b" =
       some (mkMetadata "b" "t2" "c2" "h2" "cr2" none)) ∧
    (fileCreateBucket fileDB1 "b" "t2" "c2" "h2" "cr2" none).buckets "b" =
      some ⟨some (mkMetadata "b" "t2" "c2" "h2" "cr2" none), some [some ⟨0, 1, []⟩]⟩ :=
  ⟨C4_create_bucket_overwrites.1 memDB2 "b" "t2" "c2" "h2" "cr2" none [⟨0, 1, []⟩] rfl,
   C4_create_bucket_overwrites.2 fileDB1 "b" "t2" "c2" "h2" "cr2" none
     ⟨some (mkMetadata "b" "t" "c" "h" "cr" none), some [some ⟨0, 1, []⟩]⟩ rfl⟩

/-- C5: `replace_last` on an empty bucket fails explicitly (raising, not
silently succeeding), leaving the observable event sequence and metadata
unchanged; on a non-empty bucket it overwrites exactly the most recently
inserted (last) event.  Stated for the memory backend (parts 1–2) and the file
backend (parts 3–4). -/
theorem C5_replace_last_contract :
    (∀ (d : MemDB) (b : String) (e : Event),
      d.db b = some [] → memReplaceLast d b e = (.error .indexError, d)) ∧
    (∀ (d : MemDB) (b : String) (e : Event) (evs : List Event),
      d.db b = some evs → evs ≠ [] →
      (memReplaceLast d b e).1 = .ok () ∧
      (memReplaceLast d b e).2.db b = some (evs.set (evs.length - 1) e) ∧
      (memReplaceLast d b e).2.meta = d.meta ∧
      (∀ s, s ≠ b → (memReplaceLast d b e).2.db s = d.db s)) ∧
    (∀ (d : FileDB) (b : String) (e : Event),
      fileGetEvents d b (-1) = .ok [] →
      (∃ err, (fileReplaceLast d b e).1 = .error err) ∧
      fileGetEvents (fileReplaceLast d b e).2 b (-1) = .ok [] ∧
      (∀ s, fileGetMetadata (fileReplaceLast d b e).2 s = fileGetMetadata d s)) ∧
    (∀ (d : FileDB) (b : String) (e : Event) (bk : FileBucket) (evs : List Event),
      d.buckets b = some bk → bk.log = some (evs.map some) → evs ≠ [] →
      evs.length ≤ sysMaxsize →
      (fileReplaceLast d b e).1 = .ok () ∧
      (fileReplaceLast d b e).2.buckets b =
        some ⟨bk.meta, some ((evs.set (evs.length - 1) e).map some)⟩) := by
  refine ⟨?_, ?_, ?_, ?_⟩
  · intro d b e h
    simp [memReplaceLast, h]
  · intro d b e evs h hne
    cases evs with
    | nil => exact absurd rfl hne
    | cons e0 rest =>
      simp only [memReplaceLast, h]
      refine ⟨by trivial, by simp [dictSet], by trivial, ?_⟩
      intro s hs
      simp [dictSet, hs]
  · intro d b e h
    cases hb : d.buckets b with
    | none =>
      simp only [fileReplaceLast, h, hb]
      exact ⟨⟨.fileNotFound, by trivial⟩, by simp [h], fun s => by trivial⟩
    | some bk =>
      simp only [fileReplaceLast, h, hb]
      refine ⟨⟨.indexError, rfl⟩, ?_, ?_⟩
      · simp [fileGetEvents, dictSet, pySliceFrom, parseLines]
      · intro s
        by_cases hs : s = b
        · subst hs
          simp [fileGetMetadata, dictSet, hb]
        · simp [fileGetMetadata, dictSet, hs]
  · intro d b e bk evs h1 h2 hne hlen
    have hge := fileGetEvents_all d b bk evs h1 h2 hlen
    cases evs with
    | nil => exact absurd rfl hne
    | cons e0 rest =>
      simp only [fileReplaceLast, hge, h1]
      simp [dictSet]

/-- Witness for C5: both backends at a one-event bucket (non-empty case) and
an empty-bucket memory state (failure case). -/
theorem C5_witness :
    memReplaceLast ⟨fun s => if s = "b" then some [] else none, fun _ => none⟩ "b" ⟨5, 7, []⟩ =
      (.error .indexError, ⟨fun s => if s = "b" then some [] else none, fun _ => none⟩) ∧
    (memReplaceLast memDB2 "b" ⟨5, 7, []⟩).2.db "b" = some [⟨5, 7, []⟩] ∧
    (fileReplaceLast fileDB1 "b" ⟨5, 7, []⟩).2.buckets "b" =
      some ⟨some (mkMetadata "b" "t" "c" "h" "cr" none), some [some ⟨5, 7, []⟩]⟩ := by
  refine ⟨C5_replace_last_contract.1 _ "b" ⟨5, 7, []⟩ rfl, ?_, ?_⟩
  · exact (C5_replace_last_contract.2.1 memDB2 "b" ⟨5, 7, []⟩ [⟨0, 1, []⟩] rfl
      (by decide)).2.1
  · exact (C5_replace_last_contract.2.2.2 fileDB1 "b" ⟨5, 7, []⟩
      ⟨some (mkMetadata "b" "t" "c" "h" "cr" none), some [some ⟨0, 1, []⟩]⟩
      [⟨0, 1, []⟩] rfl rfl (by decide) (by decide)).2

/-- C6 (counterexample to the claim as stated): in the file backend, after a
successful `delete_bucket`, `get_events` does not fail with `NotFound` — it
returns the value `[]`, because `get_events` answers `[]` whenever the log
file is absent. -/
theorem C6_counterexample :
    (fileDeleteBucket fileDB1 "b").1 = .ok () ∧
    fileGetEvents (fileDeleteBucket fileDB1 "b").2 "b" (-1) = .ok [] :=
  ⟨rfl, rfl⟩

/-- C6 (amended): after a successful `delete_bucket`, `get_metadata` fails in
both backends and `get_events` fails (`KeyError`) in the memory backend, but
in the file backend `get_events` returns the empty list instead of failing. -/
theorem C6_delete_bucket_behavior :
    (∀ (d : MemDB) (b : String),
      (memDeleteBucket d b).1 = .ok () →
      (∀ L : Int, memGetEvents (memDeleteBucket d b).2 b L = .error .keyError) ∧
      memGetMetadata (memDeleteBucket d b).2 b = .error .keyError) ∧
    (∀ (d : FileDB) (b : String),
      (fileDeleteBucket d b).1 = .ok () →
      fileGetMetadata (fileDeleteBucket d b).2 b = .error .fileNotFound ∧
      (∀ L : Int, fileGetEvents (fileDeleteBucket d b).2 b L = .ok [])) := by
  constructor
  · intro d b hok
    cases hdb : d.db b with
    | none => simp [memDeleteBucket, hdb] at hok
    | some evs =>
      cases hm : d.meta b with
      | none => simp [memDeleteBucket, hdb, hm] at hok
      | some m =>
        constructor
        · intro L
          simp [memDeleteBucket, hdb, hm, memGetEvents, dictSet]
        · simp [memDeleteBucket, hdb, hm, memGetMetadata, dictSet]
  · intro d b hok
    cases hb : d.buckets b with
    | none => simp [fileDeleteBucket, hb] at hok
    | some bk =>
      constructor
      · simp [fileDeleteBucket, hb, fileGetMetadata, dictSet]
      · intro L
        simp [fileDeleteBucket, hb, fileGetEvents, dictSet]

/-- Witness for C6: both backends at concrete one-bucket states. -/
theorem C6_witness :
    memGetEvents (memDeleteBucket memDB2 "b").2 "b" 3 = .error .keyError ∧
    memGetMetadata (memDeleteBucket memDB2 "b").2 "b" = .error .keyError ∧
    fileGetMetadata (fileDeleteBucket fileDB1 "b").2 "b" = .error .fileNotFound ∧
    fileGetEvents (fileDeleteBucket fileDB1 "b").2 "b" 3 = .ok [] :=
  ⟨(C6_delete_bucket_behavior.1 memDB2 "b" rfl).1 3,
   (C6_delete_bucket_behavior.1 memDB2 "b" rfl).2,
   (C6_delete_bucket_behavior.2 fileDB1 "b" rfl).1,
   (C6_delete_bucket_behavior.2 fileDB1 "b" rfl).2 3⟩

/-- C7: the claim states that the file backend's `replace_last` rewrites the
log via a temporary file and an atomic rename, never exposing a partially
written or emptied log.  The code instead opens the live log with mode `"w"`
— truncating it in place — and then writes the replacement content, so an
emptied log is observable between the truncation and the write.  This theorem
evaluates the embedded code at a two-event log: the sequence of on-disk log
contents during `replace_last` passes through `[]`, and the final state shows
the in-place rewrite that `fileReplaceLast` performs. -/
theorem C7_truncation_observable :
    fileReplaceLastLogStates [⟨0, 1, []⟩, ⟨2, 1, []⟩] ⟨2, 5, []⟩ =
      [[⟨0, 1, []⟩, ⟨2, 1, []⟩], [], [⟨0, 1, []⟩, ⟨2, 5, []⟩]] ∧
    [] ∈ fileReplaceLastLogStates [⟨0, 1, []⟩, ⟨2, 1, []⟩] ⟨2, 5, []⟩ ∧
    (fileReplaceLast fileDB2 "b" ⟨2, 5, []⟩).1 = .ok () ∧
    (fileReplaceLast fileDB2 "b" ⟨2, 5, []⟩).2.buckets "b" =
      some ⟨some (mkMetadata "b" "t" "c" "h" "cr" none),
            some [some ⟨0, 1, []⟩, some ⟨2, 5, []⟩]⟩ :=
  ⟨rfl, by simp [fileReplaceLastLogStates], rfl, rfl⟩

theorem memGetEvents_all (d : MemDB) (b : String) (evs : List Event)
    (h : d.db b = some evs) (hlen : evs.length ≤ sysMaxsize) :
    memGetEvents d b (-1) = .ok evs := by
  simp only [memGetEvents, h, if_true]
  rw [pySliceFrom_neg_all evs (sysMaxsize : Int) sysMaxsize_pos (by simpa using hlen)]

theorem memGetEvents_limit (d : MemDB) (b : String) (evs : List Event) (L : Int)
    (h : d.db b = some evs) (hL : 1 ≤ L) :
    memGetEvents d b L = .ok (evs.drop (evs.length - L.toNat)) := by
  have hL1 : ¬(L = -1) := by omega
  simp only [memGetEvents, h, if_neg hL1]
  rw [pySliceFrom_neg _ L hL]

theorem fileGetEvents_limit (d : FileDB) (b : String) (bk : FileBucket)
    (evs : List Event) (L : Int) (h1 : d.buckets b = some bk)
    (h2 : bk.log = some (evs.map some)) (hL : 1 ≤ L) :
    fileGetEvents d b L = .ok (evs.drop (evs.length - L.toNat)) := by
  have hL1 : ¬(L = -1) := by omega
  simp only [fileGetEvents, h1, h2, if_neg hL1]
  rw [pySliceFrom_neg _ L hL, List.length_map, ← List.map_drop]
  exact parseLines_map_some _

theorem memInsertMany_spec (es : List Event) :
    ∀ (d : MemDB) (b : String) (cur : List Event), d.db b = some cur →
    (memInsertMany d b es).1 = .ok () ∧
    (memInsertMany d b es).2.db b = some (cur ++ es) ∧
    (∀ s, s ≠ b → (memInsertMany d b es).2.db s = d.db s) ∧
    (memInsertMany d b es).2.meta = d.meta := by
  induction es with
  | nil =>
    intro d b cur h
    simp [memInsertMany, h]
  | cons e rest ih =>
    intro d b cur h
    simp only [memInsertMany, memInsertOne, h]
    obtain ⟨h1, h2, h3, h4⟩ :=
      ih { d with db := dictSet d.db b (some (cur ++ [e])) } b (cur ++ [e])
        (by simp [dictSet])
    refine ⟨h1, ?_, ?_, ?_⟩
    · rw [h2]
      simp
    · intro s hs
      rw [h3 s hs]
      simp [dictSet, hs]
    · rw [h4]

theorem fileInsertMany_spec (d : FileDB) (b : String) (bk : FileBucket)
    (es : List Event) (h : d.buckets b = some bk) (hne : es ≠ []) :
    (fileInsertMany d b es).1 = .ok () ∧
    (fileInsertMany d b es).2.buckets b =
      some ⟨bk.meta, some (bk.log.getD [] ++ es.map some)⟩ ∧
    (∀ s, s ≠ b → (fileInsertMany d b es).2.buckets s = d.buckets s) := by
  cases es with
  | nil => exact absurd rfl hne
  | cons f fs =>
    simp only [fileInsertMany, h]
    exact ⟨by trivial, by simp [dictSet], fun s hs => by simp [dictSet, hs]⟩

/-- C1 (counterexample to the claim as stated): in the memory backend,
`insert_many` of two events followed by `get_events(limit=-1)` returns them in
insertion order, not reversed (not newest first). -/
theorem C1_counterexample :
    memGetEvents
        (memInsertMany ⟨fun s => if s = "b" then some [] else none, fun _ => none⟩
          "b" [⟨0, 1, [("k", "a")]⟩, ⟨5, 1, [("k", "b")]⟩]).2 "b" (-1) =
      .ok [⟨0, 1, [("k", "a")]⟩, ⟨5, 1, [("k", "b")]⟩] ∧
    ([⟨0, 1, [("k", "a")]⟩, ⟨5, 1, [("k", "b")]⟩] : List Event).reverse =
      [⟨5, 1, [("k", "b")]⟩, ⟨0, 1, [("k", "a")]⟩] ∧
    ([⟨0, 1, [("k", "a")]⟩, ⟨5, 1, [("k", "b")]⟩] : List Event) ≠
      [⟨5, 1, [("k", "b")]⟩, ⟨0, 1, [("k", "a")]⟩] :=
  ⟨rfl, rfl, by decide⟩

/-- C1 (amended): in the memory and file backends, after `insert_many` of a
(non-empty, for the file backend) sequence of events, `get_events(limit=-1)`
returns all stored events content-equal to the insertions in insertion order
(not reversed), and `get_events(limit ≥ 1)` returns the `limit` most recently
inserted events, again in insertion order (oldest of the selected tail
first). -/
theorem C1_get_events_insertion_order :
    (∀ (d : MemDB) (b : String) (cur es : List Event),
      d.db b = some cur →
      (memInsertMany d b es).1 = .ok () ∧
      ((cur ++ es).length ≤ sysMaxsize →
        memGetEvents (memInsertMany d b es).2 b (-1) = .ok (cur ++ es)) ∧
      (∀ L : Int, 1 ≤ L →
        memGetEvents (memInsertMany d b es).2 b L =
          .ok ((cur ++ es).drop ((cur ++ es).length - L.toNat)))) ∧
    (∀ (d : FileDB) (b : String) (bk : FileBucket) (cur es : List Event),
      d.buckets b = some bk → bk.log.getD [] = cur.map some → es ≠ [] →
      (fileInsertMany d b es).1 = .ok () ∧
      ((cur ++ es).length ≤ sysMaxsize →
        fileGetEvents (fileInsertMany d b es).2 b (-1) = .ok (cur ++ es)) ∧
      (∀ L : Int, 1 ≤ L →
        fileGetEvents (fileInsertMany d b es).2 b L =
          .ok ((cur ++ es).drop ((cur ++ es).length - L.toNat)))) := by
  constructor
  · intro d b cur es h
    obtain ⟨h1, h2, _, _⟩ := memInsertMany_spec es d b cur h
    exact ⟨h1, fun hlen => memGetEvents_all _ b _ h2 hlen,
      fun L hL => memGetEvents_limit _ b _ L h2 hL⟩
  · intro d b bk cur es hbk hlog hne
    obtain ⟨h1, h2, _⟩ := fileInsertMany_spec d b bk es hbk hne
    rw [hlog, ← List.map_append] at h2
    refine ⟨h1, ?_, ?_⟩
    · intro hlen
      exact fileGetEvents_all _ b _ _ h2 rfl (by simpa using hlen)
    · intro L hL
      exact fileGetEvents_limit _ b _ _ L h2 rfl hL

/-- Witness for C1 at concrete states: three events inserted into an existing
one-event bucket, read back whole (`-1`) and with `limit = 2`. -/
theorem C1_witness :
    memGetEvents (memInsertMany memDB2 "b" [⟨3, 1, []⟩, ⟨6, 1, []⟩, ⟨9, 1, []⟩]).2
        "b" (-1) = .ok [⟨0, 1, []⟩, ⟨3, 1, []⟩, ⟨6, 1, []⟩, ⟨9, 1, []⟩] ∧
    memGetEvents (memInsertMany memDB2 "b" [⟨3, 1, []⟩, ⟨6, 1, []⟩, ⟨9, 1, []⟩]).2
        "b" 2 = .ok [⟨6, 1, []⟩, ⟨9, 1, []⟩] ∧
    fileGetEvents (fileInsertMany fileDB1 "b" [⟨3, 1, []⟩, ⟨6, 1, []⟩]).2
        "b" (-1) = .ok [⟨0, 1, []⟩, ⟨3, 1, []⟩, ⟨6, 1, []⟩] ∧
    fileGetEvents (fileInsertMany fileDB1 "b" [⟨3, 1, []⟩, ⟨6, 1, []⟩]).2
        "b" 2 = .ok [⟨3, 1, []⟩, ⟨6, 1, []⟩] := by
  obtain ⟨-, hm1, hm2⟩ :=
    C1_get_events_insertion_order.1 memDB2 "b" [⟨0, 1, []⟩]
      [⟨3, 1, []⟩, ⟨6, 1, []⟩, ⟨9, 1, []⟩] rfl
  obtain ⟨-, hf1, hf2⟩ :=
    C1_get_events_insertion_order.2 fileDB1 "b"
      ⟨some (mkMetadata "b" "t" "c" "h" "cr" none), some [some ⟨0, 1, []⟩]⟩
      [⟨0, 1, []⟩] [⟨3, 1, []⟩, ⟨6, 1, []⟩] rfl rfl (by decide)
  exact ⟨hm1 (by decide), hm2 2 (by decide), hf1 (by decide), hf2 2 (by decide)⟩

theorem floodLoopH_getElem?_of_not_mem (p : Int) :
    ∀ (refs : List Nat) (σ : List Event) (prev j : Nat),
      j ≠ prev → j ∉ refs → (floodLoopH p σ prev refs)[j]? = σ[j]? := by
  intro refs
  induction refs with
  | nil =>
    intro σ prev j _ _
    rfl
  | cons r rest ih =>
    intro σ prev j hjp hjm
    have hjr : j ≠ r := fun h => hjm (h ▸ List.mem_cons_self r rest)
    have hjrest : j ∉ rest := fun h => hjm (List.mem_cons_of_mem r h)
    simp only [floodLoopH]
    split_ifs with h1 h2 h3 h4
    · rw [ih _ r j hjr hjrest, List.getElem?_set_ne (Ne.symm hjr),
        List.getElem?_set_ne (Ne.symm hjp)]
    · rw [ih _ r j hjr hjrest, List.getElem?_set_ne (Ne.symm hjp)]
    · rw [ih _ r j hjr hjrest, List.getElem?_set_ne (Ne.symm hjr),
        List.getElem?_set_ne (Ne.symm hjp)]
    · rw [ih _ r j hjr hjrest, List.getElem?_set_ne (Ne.symm hjr)]
    · exact ih _ r j hjr hjrest

/-- C8: `flood` never mutates its caller-owned input.  In the embedding with
explicit object identity, every heap cell the caller can reach (every index
into the original heap) holds the same event value after `flood` as before:
the deep copy allocates only fresh cells and all in-place writes of the pass
go to those fresh cells. -/
theorem C8_flood_preserves_caller_events (σ : List Event) (refs : List Nat)
    (p : Int) (i : Nat) (hi : i < σ.length) :
    (floodH σ refs p).1[i]? = σ[i]? := by
  simp only [floodH, deepcopyRefs]
  have hmem : ∀ r ∈ List.insertionSort
      (heapTsLE (σ ++ refs.map (fun q => σ.getD q default)))
      (List.range' σ.length refs.length), σ.length ≤ r := by
    intro r hr
    have hr2 : r ∈ List.range' σ.length refs.length :=
      (List.perm_insertionSort _ _).subset hr
    obtain ⟨k, hk, rfl⟩ := List.mem_range'.mp hr2
    omega
  cases hsort : List.insertionSort
      (heapTsLE (σ ++ refs.map (fun q => σ.getD q default)))
      (List.range' σ.length refs.length) with
  | nil =>
    exact List.getElem?_append_left hi
  | cons r rest =>
    have hr : σ.length ≤ r := hmem r (hsort ▸ List.mem_cons_self r rest)
    have hrest : ∀ q ∈ rest, σ.length ≤ q := fun q hq =>
      hmem q (hsort ▸ List.mem_cons_of_mem r hq)
    have hpres := floodLoopH_getElem?_of_not_mem p rest
      (σ ++ List.map (fun q => σ.getD q default) refs) r i (by omega)
      (fun h => by have := hrest i h; omega)
    exact hpres.trans (List.getElem?_append_left hi)

/-- Witness for C8 at a one-event heap. -/
theorem C8_witness :
    0 < ([⟨0, 2, []⟩] : List Event).length ∧
    (floodH [⟨0, 2, []⟩] [0] 5).1[0]? = ([⟨0, 2, []⟩] : List Event)[0]? :=
  ⟨by decide, C8_flood_preserves_caller_events [⟨0, 2, []⟩] [0] 5 0 (by decide)⟩

theorem flood_single_pos (e : Event) (p : Int) (h : 0 < e.duration) :
    flood [e] p = [e] := by
  simp [flood, List.insertionSort, List.orderedInsert, floodPass, List.filter, h]

theorem flood_single_nonpos (e : Event) (p : Int) (h : ¬0 < e.duration) :
    flood [e] p = [] := by
  simp [flood, List.insertionSort, List.orderedInsert, floodPass, List.filter, h]

theorem flood_pair_sorted (e1 e2 : Event) (p : Int)
    (hts : e1.timestamp ≤ e2.timestamp) :
    flood [e1, e2] p =
      (floodPass p e1 [e2]).filter (fun ev => decide (0 < ev.duration)) := by
  have hr : tsLE e1 e2 := hts
  simp [flood, List.insertionSort, List.orderedInsert, hr]

theorem flood_pair_fix (a b : Event) (p : Int)
    (hts : a.timestamp ≤ b.timestamp) (ha : 0 < a.duration) (hb : 0 < b.duration)
    (hstab : p < b.timestamp - (a.timestamp + a.duration) ∨
      (a.data ≠ b.data ∧ a.timestamp + a.duration = b.timestamp)) :
    flood [a, b] p = [a, b] := by
  rw [flood_pair_sorted a b p hts]
  by_cases hgle : b.timestamp - (a.timestamp + a.duration) ≤ p
  · obtain ⟨hdata, hgap⟩ := hstab.resolve_left (by omega)
    simp only [floodPass, if_pos hgle]
    by_cases hdom : b.duration ≤ a.duration
    · rw [if_pos hdom, if_neg hdata]
      rw [show b.timestamp - a.timestamp = a.duration from by omega]
      simp only [floodPass, List.filter_cons, List.filter_nil, decide_eq_true_eq]
      rw [if_pos ha, if_pos hb]
    · rw [if_neg hdom, if_neg hdata, hgap]
      rw [show b.timestamp + b.duration - b.timestamp = b.duration from by omega]
      simp only [floodPass, List.filter_cons, List.filter_nil, decide_eq_true_eq]
      rw [if_pos ha, if_pos hb]
  · simp only [floodPass, if_neg hgle, List.filter_cons, List.filter_nil,
      decide_eq_true_eq]
    rw [if_pos ha, if_pos hb]

set_option maxHeartbeats 1000000 in
theorem flood_pair_idem (e1 e2 : Event) (p : Int)
    (hts : e1.timestamp ≤ e2.timestamp) (h1 : 0 ≤ e1.duration)
    (h2 : 0 ≤ e2.duration) :
    flood (flood [e1, e2] p) p = flood [e1, e2] p := by
  rw [flood_pair_sorted e1 e2 p hts]
  by_cases hg : e2.timestamp - (e1.timestamp + e1.duration) ≤ p
  · by_cases hdom : e2.duration ≤ e1.duration
    · by_cases hdata : e1.data = e2.data
      · simp only [floodPass, if_pos hg, if_pos hdom, if_pos hdata,
          List.filter_cons, List.filter_nil, decide_eq_true_eq]
        rw [if_neg (by omega : ¬(0 : Int) < 0)]
        by_cases ho1 : 0 < e2.timestamp + e2.duration - e1.timestamp
        · rw [if_pos ho1]
          exact flood_single_pos _ p ho1
        · rw [if_neg ho1]
          rfl
      · simp only [floodPass, if_pos hg, if_pos hdom, if_neg hdata,
          List.filter_cons, List.filter_nil, decide_eq_true_eq]
        by_cases ho1 : 0 < e2.timestamp - e1.timestamp
        · rw [if_pos ho1]
          by_cases ho2 : 0 < e2.duration
          · rw [if_pos ho2]
            exact flood_pair_fix _ _ p hts ho1 ho2
              (Or.inr ⟨hdata, by dsimp only; omega⟩)
          · rw [if_neg ho2]
            exact flood_single_pos _ p ho1
        · rw [if_neg ho1]
          by_cases ho2 : 0 < e2.duration
          · rw [if_pos ho2]
            exact flood_single_pos _ p ho2
          · rw [if_neg ho2]
            rfl
    · by_cases hdata : e1.data = e2.data
      · simp only [floodPass, if_pos hg, if_neg hdom, if_pos hdata,
          List.filter_cons, List.filter_nil, decide_eq_true_eq]
        rw [if_neg (by omega : ¬(0 : Int) < 0)]
        rw [if_pos (by omega : (0 : Int) < e2.timestamp + e2.duration - e1.timestamp)]
        exact flood_single_pos _ p (by dsimp only; omega)
      · simp only [floodPass, if_pos hg, if_neg hdom, if_neg hdata,
          List.filter_cons, List.filter_nil, decide_eq_true_eq]
        by_cases ho1 : 0 < e1.duration
        · rw [if_pos ho1]
          rw [if_pos (by omega :
            (0 : Int) < e2.timestamp + e2.duration - (e1.timestamp + e1.duration))]
          exact flood_pair_fix _ _ p (by dsimp only; omega) ho1
            (by dsimp only; omega) (Or.inr ⟨hdata, rfl⟩)
        · rw [if_neg ho1]
          rw [if_pos (by omega :
            (0 : Int) < e2.timestamp + e2.duration - (e1.timestamp + e1.duration))]
          exact flood_single_pos _ p (by dsimp only; omega)
  · simp only [floodPass, if_neg hg, List.filter_cons, List.filter_nil,
      decide_eq_true_eq]
    by_cases ho1 : 0 < e1.duration
    · rw [if_pos ho1]
      by_cases ho2 : 0 < e2.duration
      · rw [if_pos ho2]
        exact flood_pair_fix _ _ p hts ho1 ho2 (Or.inl (by omega))
      · rw [if_neg ho2]
        exact flood_single_pos _ p ho1
    · rw [if_neg ho1]
      by_cases ho2 : 0 < e2.duration
      · rw [if_pos ho2]
        exact flood_single_pos _ p ho2
      · rw [if_neg ho2]
        rfl

/-- C3 (counterexample to the claim as stated): `flood` is not idempotent.  A
chain of three near-contiguous same-data events is merged to two events by one
pass (the single left-to-right pass does not re-check merged events against
further neighbours), and a second pass merges those two. -/
theorem C3_counterexample :
    flood (flood [⟨0, 10, [("app", "x")]⟩, ⟨12, 3, [("app", "x")]⟩,
        ⟨17, 2, [("app", "x")]⟩] 5) 5 ≠
      flood [⟨0, 10, [("app", "x")]⟩, ⟨12, 3, [("app", "x")]⟩,
        ⟨17, 2, [("app", "x")]⟩] 5 := by decide

/-- C3 (amended): `flood` is idempotent on inputs of at most two events (with
non-negative durations and a non-negative pulsetime); with three or more
events a single pass can leave newly adjacent mergeable pairs behind, so
idempotence fails in general. -/
theorem C3_flood_idem_le_two (events : List Event) (p : Int) (_hp : 0 ≤ p)
    (hlen : events.length ≤ 2) (hdur : ∀ e ∈ events, 0 ≤ e.duration) :
    flood (flood events p) p = flood events p := by
  rcases events with - | ⟨a, - | ⟨b, - | ⟨c, rest⟩⟩⟩
  · rfl
  · by_cases h : 0 < a.duration
    · rw [flood_single_pos a p h, flood_single_pos a p h]
    · rw [flood_single_nonpos a p h]
      rfl
  · have ha := hdur a (by simp)
    have hb := hdur b (by simp)
    by_cases hab : a.timestamp ≤ b.timestamp
    · exact flood_pair_idem a b p hab ha hb
    · have hba : tsLE b a := by
        show b.timestamp ≤ a.timestamp
        omega
      have hnab : ¬tsLE a b := hab
      have hswap : flood [a, b] p = flood [b, a] p := by
        simp [flood, List.insertionSort, List.orderedInsert, hba, hnab]
      rw [hswap]
      exact flood_pair_idem b a p hba hb ha
  · simp at hlen

/-- Witness for C3 at a concrete two-event list. -/
theorem C3_witness :
    flood (flood [⟨0, 2, [("app", "x")]⟩, ⟨3, 4, [("app", "x")]⟩] 5) 5 =
      flood [⟨0, 2, [("app", "x")]⟩, ⟨3, 4, [("app", "x")]⟩] 5 :=
  C3_flood_idem_le_two [⟨0, 2, [("app", "x")]⟩, ⟨3, 4, [("app", "x")]⟩] 5
    (by decide) (by decide) (by decide)
